import Mathlib

/-!
Shallow embedding of the RAG HTTP service repository (FastAPI + LangChain +
pgvector): request validation, the /search and /rag/query handlers, the
vector-store dimensionality-mismatch recovery, the stub embedding provider,
the stateful chat service, the startup database retry loop, the DATABASE_URL
sanitisation and the chat-history file persistence, together with theorems
checking the specification's statements about them.
-/

/-- `Document` (langchain_core.documents): page content plus string-valued
metadata, as used by this repository. -/
structure Document where
  page_content : String
  metadata : List (String × String)
deriving Repr, DecidableEq

/-- `DocumentResponse` (src/app/api/models.py): content, metadata, optional
similarity score. Python floats are modelled as rationals. -/
structure DocumentResponse where
  content : String
  metadata : List (String × String)
  score : Option ℚ
deriving Repr, DecidableEq

/-- `SearchResponse` (src/app/api/models.py). -/
structure SearchResponse where
  query : String
  documents : List DocumentResponse
  count : Nat
deriving Repr, DecidableEq

/-- `RAGResponse` (src/app/api/models.py); `sources` is always filled by the
handler so it is modelled as a plain list. -/
structure RAGResponse where
  question : String
  answer : String
  sources : List DocumentResponse
deriving Repr, DecidableEq

/-- Outcome of an HTTP request in the model: rejected by pydantic validation
before the handler body, a successful response, or an HTTPException raised by
the handler. -/
inductive HandlerResult (α : Type) where
  | validationError
  | ok (value : α)
  | httpException (status : Nat) (detail : String)
deriving Repr, DecidableEq

/-- Pydantic bound on `SearchRequest.k` (src/app/api/models.py line 11):
`Field(default=5, ge=1, le=20)`. -/
def searchRequestKValid (k : Int) : Bool :=
  1 ≤ k && k ≤ 20

/-- Pydantic bound on `RAGRequest.k` (src/app/api/models.py line 34):
`Field(default=2, ge=1, le=10)`. -/
def ragRequestKValid (k : Int) : Bool :=
  1 ≤ k && k ≤ 10

/-- `POST /search` = `vector_search` (src/app/api/routes/search.py), with
FastAPI's request-body validation in front of the handler body.  The vector
store's `similarity_search_with_score` is injected as a function returning
either the scored documents or a raised exception's message.  The second
component counts how many retrieval calls the request performed. -/
def postSearch
    (similarity_search_with_score : String → Int → Except String (List (Document × ℚ)))
    (query : String) (k : Int) : HandlerResult SearchResponse × Nat :=
  if searchRequestKValid k then
    match similarity_search_with_score query k with
    | .ok docsWithScores =>
      let documents := docsWithScores.map fun p =>
        { content := p.1.page_content, metadata := p.1.metadata, score := some p.2 :
          DocumentResponse }
      (.ok { query := query, documents := documents, count := documents.length }, 1)
    | .error e => (.httpException 500 ("검색 중 오류 발생: " ++ e), 1)
  else (.validationError, 0)

/-- The context block built in `rag_query` (src/app/router/chat_router.py
lines 56-60): `"\n\n".join(f"[문서 {i+1}]\n{doc.page_content}" for i, doc in
enumerate(source_docs))`. -/
def buildContext (docs : List Document) : String :=
  String.intercalate "\n\n" (docs.enum.map fun p =>
    "[문서 " ++ toString (p.1 + 1) ++ "]\n" ++ p.2.page_content)

/-- The RAG prompt template of `rag_query` (src/app/router/chat_router.py
lines 62-69). -/
def buildRagPrompt (context question : String) : String :=
  "다음 컨텍스트를 바탕으로 질문에 답해주세요:\n\n컨텍스트:\n" ++ context ++
  "\n\n질문: " ++ question ++ "\n\n답변:"

/-- `POST /rag/query` = `rag_query` (src/app/router/chat_router.py), on the
branch where a `ChatService` is present, with FastAPI validation in front.
`retrieve` is the injected `retriever.invoke`, `chat` the injected
`chat_service.chat`; either may raise, modelled by `Except`.  Besides the
HTTP outcome the model returns the number of retrieval calls and the list of
prompts passed to the generation call. -/
def ragQuery
    (retrieve : String → Int → Except String (List Document))
    (chat : String → Except String String)
    (question : String) (k : Int) :
    HandlerResult RAGResponse × Nat × List String :=
  if ragRequestKValid k then
    match retrieve question k with
    | .error e => (.httpException 500 ("RAG 질의 중 오류 발생: " ++ e), 1, [])
    | .ok source_docs =>
      let context := buildContext source_docs
      let rag_prompt := buildRagPrompt context question
      match chat rag_prompt with
      | .error e =>
        (.httpException 500 ("RAG 질의 중 오류 발생: " ++ e), 1, [rag_prompt])
      | .ok answer =>
        let sources := source_docs.map fun d =>
          { content := d.page_content, metadata := d.metadata, score := none :
            DocumentResponse }
        (.ok { question := question, answer := answer, sources := sources }, 1,
          [rag_prompt])
  else (.validationError, 0, [])

/-- The documents' contents with positional labels, as the spec words it: the
i-th content prefixed with "[문서 i]" on its own line, in order. -/
def labeledContents : Nat → List Document → List String
  | _, [] => []
  | i, d :: ds => ("[문서 " ++ toString i ++ "]\n" ++ d.page_content) :: labeledContents (i + 1) ds

/-- The context block as described by the spec: labelled contents in retrieval
order joined by blank lines. -/
def specContextBlock (docs : List Document) : String :=
  String.intercalate "\n\n" (labeledContents 1 docs)

/-- The choice made by `get_embeddings` (src/app/core/vectorstore.py). -/
inductive EmbeddingsChoice where
  | openAIEmbeddings (apiKey : String)
  | simpleEmbeddings
deriving Repr, DecidableEq

/-- `get_embeddings` (src/app/core/vectorstore.py lines 33-37): OpenAI
embeddings when `settings.openai_api_key` is truthy, else the stub.  Python
truthiness: `None` and the empty string are both falsy. -/
def get_embeddings (openai_api_key : Option String) : EmbeddingsChoice :=
  match openai_api_key with
  | some key => if key ≠ "" then .openAIEmbeddings key else .simpleEmbeddings
  | none => .simpleEmbeddings

/-- `SimpleEmbeddings.embed_query` (src/app/core/vectorstore.py lines 28-30):
ignores its input and returns `[0.1, 0.2, 0.3, 0.4, 0.5]` (floats modelled as
rationals). -/
def SimpleEmbeddings.embed_query (text : String) : List ℚ :=
  [1/10, 2/10, 3/10, 4/10, 5/10]

/-- `SimpleEmbeddings.embed_documents` (src/app/core/vectorstore.py lines
24-26): one copy of the fixed vector per input text. -/
def SimpleEmbeddings.embed_documents (texts : List String) : List (List ℚ) :=
  texts.map fun _ => [1/10, 2/10, 3/10, 4/10, 5/10]

/-- The constant stub vector named by the claim. -/
def constEmbeddingVector : List ℚ := [1/10, 2/10, 3/10, 4/10, 5/10]

/-- `ChatMessage` (src/app/service/chat_service.py): role, content, optional
timestamp (defaulting to `None`). -/
structure ChatMessage where
  role : String
  content : String
  timestamp : Option String := none
deriving Repr, DecidableEq

/-- The per-message rendering used by `ChatService._format_chat_history`:
user and assistant turns get their templates, any other role contributes
nothing. -/
def renderMessage (msg : ChatMessage) : String :=
  if msg.role = "user" then "### 사용자:\n" ++ msg.content ++ "\n"
  else if msg.role = "assistant" then "### 어시스턴트:\n" ++ msg.content ++ "\n"
  else ""

/-- The concatenation of the rendered turns of a history, in order. -/
def renderMessages : List ChatMessage → String
  | [] => ""
  | msg :: rest => renderMessage msg ++ renderMessages rest

/-- `ChatService._format_chat_history` (src/app/service/chat_service.py lines
238-250): renders every turn and appends the final assistant header. -/
def ChatService.format_chat_history (chat_history : List ChatMessage) : String :=
  renderMessages chat_history ++ "### 어시스턴트:\n"

/-- `ChatService.chat` (src/app/service/chat_service.py lines 159-236), with
the model's sampling step injected as `generate : prompt → reply`.  The state
is the `chat_history` list; the call optionally resets it, appends the user
message, renders the transcript, generates once, appends the assistant reply
and returns it together with the new history. -/
def ChatService.chat (generate : String → String) (chat_history : List ChatMessage)
    (user_message : String) (reset_history : Bool) : String × List ChatMessage :=
  let h0 := if reset_history then [] else chat_history
  let h1 := h0 ++ [{ role := "user", content := user_message }]
  let reply := generate (ChatService.format_chat_history h1)
  (reply, h1 ++ [{ role := "assistant", content := reply }])

/-- `ChatService.clear_history` (src/app/service/chat_service.py). -/
def ChatService.clear_history (chat_history : List ChatMessage) : List ChatMessage :=
  []

/-- The result of `wait_for_postgres` (src/app/main.py lines 28-53): either a
successful connection or the final raised exception, each carrying the number
of connection attempts made and the total seconds spent in `time.sleep`. -/
inductive WaitResult where
  | connected (attempts : Nat) (sleepSeconds : Nat)
  | failed (attempts : Nat) (sleepSeconds : Nat)
deriving Repr, DecidableEq

/-- Number of connection attempts recorded in a `WaitResult`. -/
def WaitResult.attempts : WaitResult → Nat
  | .connected a _ => a
  | .failed a _ => a

/-- The `while retry_count < max_retries` loop of `wait_for_postgres`, entered
with `retry_count` failures so far; `connectOk n` tells whether the (n+1)-th
`psycopg2.connect` attempt succeeds (a failing attempt raises
`OperationalError`, is counted, and is followed by `time.sleep(2)`). -/
def waitFromRetry (connectOk : Nat → Bool) (retry_count : Nat) : WaitResult :=
  if retry_count < 30 then
    if connectOk retry_count then .connected (retry_count + 1) (2 * retry_count)
    else waitFromRetry connectOk (retry_count + 1)
  else .failed retry_count (2 * retry_count)
termination_by 30 - retry_count

/-- `wait_for_postgres` (src/app/main.py): the loop started at
`retry_count = 0` with `max_retries = 30`. -/
def wait_for_postgres (connectOk : Nat → Bool) : WaitResult :=
  waitFromRetry connectOk 0

/-- The three relevant Postgres tables' contents for the PGVector collection
store: `langchain_pg_collection` rows `(name, uuid)` and
`langchain_pg_embedding` rows `(collection_id, document)`.  UUIDs are
modelled as naturals. -/
structure PGState where
  collections : List (String × Nat)
  embeddings : List (Nat × Document)
deriving Repr, DecidableEq

/-- The five sample documents of `add_sample_documents`
(src/app/core/vectorstore.py lines 60-85). -/
def sample_docs : List Document :=
  [⟨"LangChain은 대규모 언어 모델을 활용한 애플리케이션 개발을 위한 프레임워크입니다.",
    [("source", "langchain_intro"), ("type", "definition")]⟩,
   ⟨"pgvector는 PostgreSQL에서 벡터 유사도 검색을 가능하게 하는 확장입니다.",
    [("source", "pgvector_intro"), ("type", "definition")]⟩,
   ⟨"Docker는 애플리케이션을 컨테이너로 패키징하여 배포를 쉽게 만드는 플랫폼입니다.",
    [("source", "docker_intro"), ("type", "definition")]⟩,
   ⟨"Python은 데이터 과학과 AI 개발에 널리 사용되는 프로그래밍 언어입니다.",
    [("source", "python_intro"), ("type", "definition")]⟩,
   ⟨"FastAPI는 현대적이고 빠른 웹 프레임워크로, 자동 API 문서화와 타입 검증을 제공합니다.",
    [("source", "fastapi_intro"), ("type", "definition")]⟩]

/-- `SELECT uuid FROM langchain_pg_collection WHERE name = %s` followed by
`fetchone()`: the uuid of the first collection with the given name, if any. -/
def selectCollectionUuid (st : PGState) (name : String) : Option Nat :=
  ((st.collections.filter fun c => c.1 = name).head?).map (·.2)

/-- `add_sample_documents` on a PGVector store bound to collection
`langchain_collection`: the library creates the collection (with a fresh
uuid) if it is absent, then inserts one embedding row per sample document. -/
def add_sample_documents (st : PGState) (freshUuid : Nat) : PGState :=
  match selectCollectionUuid st "langchain_collection" with
  | some u => { st with embeddings := st.embeddings ++ sample_docs.map fun d => (u, d) }
  | none =>
    { collections := st.collections ++ [("langchain_collection", freshUuid)],
      embeddings := st.embeddings ++ sample_docs.map fun d => (freshUuid, d) }

/-- The recovery branch of `initialize_vectorstore`
(src/app/core/vectorstore.py lines 103-151) taken when the caught error
message contains "different vector dimensions": look up the collection's
uuid; if found, delete its embedding rows and the collection record, then
re-create the store and re-ingest the sample documents.  The unconditional
`add_sample_documents` at the end of the `except` block is included, so the
sample documents are ingested twice. -/
def recoverVectorDimensionMismatch (st : PGState) (freshUuid : Nat) : PGState :=
  match selectCollectionUuid st "langchain_collection" with
  | some collection_uuid =>
    let st1 : PGState :=
      { collections := st.collections.filter fun c => c.2 ≠ collection_uuid,
        embeddings := st.embeddings.filter fun e => e.1 ≠ collection_uuid }
    let st2 := add_sample_documents st1 freshUuid
    add_sample_documents st2 freshUuid
  | none =>
    let st2 := add_sample_documents st freshUuid
    add_sample_documents st2 freshUuid

/-- Value of an ASCII hex digit (urllib's `_hextobyte` table). -/
def hexDigitVal (c : Char) : Option Nat :=
  if '0' ≤ c ∧ c ≤ '9' then some (c.toNat - 48)
  else if 'A' ≤ c ∧ c ≤ 'F' then some (c.toNat - 55)
  else if 'a' ≤ c ∧ c ≤ 'f' then some (c.toNat - 87)
  else none

/-- `urllib.parse.unquote` on the ASCII fragment: a '%' followed by two hex
digits decodes to that byte (multi-byte UTF-8 sequences are outside the
model; the repository's URLs are ASCII), any other '%' stays literal. -/
def unquoteChars : List Char → List Char
  | [] => []
  | '%' :: a :: b :: rest =>
    match hexDigitVal a, hexDigitVal b with
    | some ha, some hb => Char.ofNat (16 * ha + hb) :: unquoteChars rest
    | _, _ => '%' :: unquoteChars (a :: b :: rest)
  | c :: rest => c :: unquoteChars rest

/-- The `.replace('+', ' ')` done by `parse_qsl` before unquoting. -/
def plusToSpace (s : List Char) : List Char :=
  s.map fun c => if c = '+' then ' ' else c

/-- `unquote_plus` as applied by `parse_qsl` to names and values. -/
def unquote_plus (s : List Char) : List Char :=
  unquoteChars (plusToSpace s)

/-- `str.split(sep)` on characters; the empty string yields `[[]]`, as in
Python. -/
def splitOnChar (sep : Char) : List Char → List (List Char)
  | [] => [[]]
  | c :: rest =>
    match splitOnChar sep rest with
    | [] => if c = sep then [[], []] else [[c]]
    | cur :: parts => if c = sep then [] :: cur :: parts else (c :: cur) :: parts

/-- Split at the first occurrence of `sep`, if any (`str.split(sep, 1)` /
`str.find`). -/
def splitOnFirst (sep : Char) : List Char → Option (List Char × List Char)
  | [] => none
  | c :: rest =>
    if c = sep then some ([], rest)
    else
      match splitOnFirst sep rest with
      | none => none
      | some (pre, post) => some (c :: pre, post)

/-- Split at the last occurrence of `sep`, if any (`str.rfind`). -/
def splitOnLast (sep : Char) (s : List Char) : Option (List Char × List Char) :=
  match splitOnFirst sep s.reverse with
  | none => none
  | some (revPost, revPre) => some (revPre.reverse, revPost.reverse)

/-- `urllib.parse.parse_qsl` with default arguments: split on '&', skip empty
chunks, skip chunks without '=', skip empty values (`keep_blank_values` is
False), and unquote names and values. -/
def parse_qsl (qs : List Char) : List (List Char × List Char) :=
  (splitOnChar '&' qs).filterMap fun name_value =>
    if name_value = [] then none
    else
      match splitOnFirst '=' name_value with
      | none => none
      | some (name, value) =>
        if value = [] then none
        else some (unquote_plus name, unquote_plus value)

/-- One `d[k] = v` step with Python dict semantics: update in place if the
key exists, else append. -/
def dictUpsert (d : List (List Char × List Char)) (k v : List Char) :
    List (List Char × List Char) :=
  if d.any fun p => p.1 = k then d.map fun p => if p.1 = k then (k, v) else p
  else d ++ [(k, v)]

/-- `dict(pairs)`: insertion-ordered, last value per key wins. -/
def pythonDict (l : List (List Char × List Char)) : List (List Char × List Char) :=
  l.foldl (fun d p => dictUpsert d p.1 p.2) []

/-- `d.pop(k, None)`: remove the key's entry if present. -/
def dictPop (d : List (List Char × List Char)) (k : List Char) :
    List (List Char × List Char) :=
  d.filter fun p => p.1 ≠ k

/-- Characters `quote` never escapes: ASCII alphanumerics and `_.-~`. -/
def alwaysSafeChar (c : Char) : Bool :=
  c.isAlpha || c.isDigit || c = '_' || c = '.' || c = '-' || c = '~'

/-- Upper-case hex digit of a value below 16. -/
def hexDigitUpper (n : Nat) : Char :=
  if n < 10 then Char.ofNat (48 + n) else Char.ofNat (55 + n)

/-- `urllib.parse.quote_plus` per character, on the ASCII fragment: safe
characters stay, space becomes '+', anything else becomes a %XX escape of its
(ASCII) code. -/
def quotePlusChar (c : Char) : List Char :=
  if alwaysSafeChar c then [c]
  else if c = ' ' then ['+']
  else ['%', hexDigitUpper (c.toNat / 16), hexDigitUpper (c.toNat % 16)]

/-- `urllib.parse.quote_plus` on a string. -/
def quote_plus (s : List Char) : List Char :=
  (s.map quotePlusChar).flatten

/-- `urllib.parse.urlencode` on an insertion-ordered dict. -/
def urlencode (d : List (List Char × List Char)) : List Char :=
  List.intercalate ['&'] (d.map fun p => quote_plus p.1 ++ '=' :: quote_plus p.2)

/-- The six components returned by `urllib.parse.urlparse`. -/
structure UrlParseResult where
  scheme : List Char
  netloc : List Char
  path : List Char
  params : List Char
  query : List Char
  fragment : List Char
deriving Repr, DecidableEq

/-- Characters allowed in a URL scheme after the first letter. -/
def schemeChar (c : Char) : Bool :=
  c.isAlpha || c.isDigit || c = '+' || c = '-' || c = '.'

/-- `_splitparams`: parameters after the last ';' of the final path segment. -/
def splitPathParams (path : List Char) : List Char × List Char :=
  match splitOnLast '/' path with
  | none =>
    match splitOnFirst ';' path with
    | none => (path, [])
    | some (a, b) => (a, b)
  | some (pre, post) =>
    match splitOnFirst ';' post with
    | none => (path, [])
    | some (a, b) => (pre ++ '/' :: a, b)

/-- `urllib.parse.urlparse` (via `urlsplit`): strip the scheme when the part
before the first ':' is a valid scheme (lower-casing it), take the netloc
after '//' up to the next '/', '?' or '#', split off the fragment at the
first '#', the query at the first '?', and path parameters at the last ';'
of the final path segment. -/
def urlparseChars (url0 : List Char) : UrlParseResult :=
  let p0 :=
    match splitOnFirst ':' url0 with
    | some (pre, post) =>
      if pre ≠ [] ∧ (pre.head?.getD ' ').isAlpha ∧ pre.all schemeChar
      then (pre.map Char.toLower, post)
      else (([] : List Char), url0)
    | none => (([] : List Char), url0)
  let scheme := p0.1
  let p1 :=
    match p0.2 with
    | '/' :: '/' :: rest =>
      let sp := rest.span fun c => !(c = '/' || c = '?' || c = '#')
      (sp.1, sp.2)
    | other => (([] : List Char), other)
  let netloc := p1.1
  let p2 :=
    match splitOnFirst '#' p1.2 with
    | some (a, b) => (a, b)
    | none => (p1.2, ([] : List Char))
  let fragment := p2.2
  let p3 :=
    match splitOnFirst '?' p2.1 with
    | some (a, b) => (a, b)
    | none => (p2.1, ([] : List Char))
  let query := p3.2
  let pp := splitPathParams p3.1
  { scheme := scheme, netloc := netloc, path := pp.1, params := pp.2,
    query := query, fragment := fragment }

/-- `urllib.parse.urlunparse` / `urlunsplit`. -/
def urlunparseChars (p : UrlParseResult) : List Char :=
  let url1 := if p.params = [] then p.path else p.path ++ ';' :: p.params
  let url2 :=
    if p.netloc ≠ [] ∨ url1.take 2 = ['/', '/'] then
      '/' :: '/' :: (p.netloc ++
        (if url1 ≠ [] ∧ url1.take 1 ≠ ['/'] then '/' :: url1 else url1))
    else url1
  let url3 := if p.scheme = [] then url2 else p.scheme ++ ':' :: url2
  let url4 := if p.query = [] then url3 else url3 ++ '?' :: p.query
  if p.fragment = [] then url4 else url4 ++ '#' :: p.fragment

/-- The query rewrite done by `Settings._sanitize_database_url`:
`urlencode(dict(parse_qsl(query)) minus channel_binding)`. -/
def sanitizeQuery (query : List Char) : List Char :=
  urlencode (dictPop (pythonDict (parse_qsl query)) "channel_binding".toList)

/-- `Settings._sanitize_database_url` (src/app/config.py lines 68-78):
re-parse the URL, drop `channel_binding` from its query dict, re-encode. -/
def sanitize_database_url (raw_url : List Char) : UrlParseResult × List Char :=
  let parsed := urlparseChars raw_url
  let sanitized : UrlParseResult := { parsed with query := sanitizeQuery parsed.query }
  (sanitized, urlunparseChars sanitized)

/-- `Settings.database_url` (src/app/config.py lines 45-66): sanitize a
truthy `DATABASE_URL` (Python truthiness: `None` and "" are falsy), else
assemble the URL from the POSTGRES_* fields. -/
def Settings.database_url (database_url_env : Option (List Char))
    (postgres_user postgres_password postgres_host postgres_port postgres_db :
      List Char) : List Char :=
  let fallback := "postgresql://".toList ++ postgres_user ++ ':' ::
    postgres_password ++ '@' :: postgres_host ++ ':' :: postgres_port ++ '/' ::
    postgres_db
  match database_url_env with
  | some url => if url = [] then fallback else (sanitize_database_url url).2
  | none => fallback

/-- `name=value` pairs rendered as a query string. -/
def renderQueryPairs (ps : List (List Char × List Char)) : List Char :=
  List.intercalate ['&'] (ps.map fun p => p.1 ++ '=' :: p.2)

/-- `'?' ++ q` when the query is non-empty, nothing otherwise (as
`urlunparse` emits it). -/
def optQuery (q : List Char) : List Char :=
  if q = [] then [] else '?' :: q

/-- Wellformedness of rendered query pairs: non-empty keys and values made of
characters `quote` leaves alone. -/
def SafePairs (ps : List (List Char × List Char)) : Prop :=
  ∀ p ∈ ps, p.1 ≠ [] ∧ p.2 ≠ [] ∧ (∀ c ∈ p.1, alwaysSafeChar c) ∧
    ∀ c ∈ p.2, alwaysSafeChar c

/-- Lower-case hex digit of a value below 16 (CPython's `'\\u%04x'`). -/
def hexDigitLower (n : Nat) : Char :=
  if n < 10 then Char.ofNat (48 + n) else Char.ofNat (87 + n)

/-- Per-character escaping of CPython's json encoder with
`ensure_ascii=False`: backslash, double quote and the named control
characters get two-character escapes, other control characters below 0x20
get a `\u00xx` escape, everything else is written as-is. -/
def escapeJsonChar (c : Char) : List Char :=
  if c = '"' then ['\\', '"']
  else if c = '\\' then ['\\', '\\']
  else if c = '\x08' then ['\\', 'b']
  else if c = '\x0c' then ['\\', 'f']
  else if c = '\n' then ['\\', 'n']
  else if c = '\r' then ['\\', 'r']
  else if c = '\t' then ['\\', 't']
  else if c.toNat < 32 then
    ['\\', 'u', '0', '0', hexDigitLower (c.toNat / 16), hexDigitLower (c.toNat % 16)]
  else [c]

/-- A JSON string literal as the encoder writes it. -/
def encodeJsonString (s : List Char) : List Char :=
  '"' :: (s.map escapeJsonChar).flatten ++ ['"']

/-- `None` becomes `null`, a string becomes a string literal. -/
def encodeJsonOptString : Option String → List Char
  | none => "null".toList
  | some s => encodeJsonString s.toList

/-- One history entry as `json.dump(..., ensure_ascii=False, indent=2)`
renders the dict `{"role": ..., "content": ..., "timestamp": ...}` built by
`save_chat_history` (src/app/service/chat_service.py lines 386-394), at
nesting level 1. -/
def encodeMessage (m : ChatMessage) : List Char :=
  "\x7b\n    \"role\": ".toList ++ encodeJsonString m.role.toList ++
  ",\n    \"content\": ".toList ++ encodeJsonString m.content.toList ++
  ",\n    \"timestamp\": ".toList ++ encodeJsonOptString m.timestamp ++
  "\n  \x7d".toList

/-- `ChatService.save_chat_history`: the exact file contents written by
`json.dump(history_dict, f, ensure_ascii=False, indent=2)`. -/
def save_chat_history (history : List ChatMessage) : List Char :=
  if history = [] then "[]".toList
  else "[\n  ".toList ++
    List.intercalate ",\n  ".toList (history.map encodeMessage) ++
    "\n]".toList

/-- JSON values appearing in chat-history files: strings, `null`, arrays and
objects (the repository's files contain no numbers or booleans, so
`json.load` is modelled on this fragment). -/
inductive Jv where
  | str (s : List Char)
  | null
  | arr (items : List Jv)
  | obj (fields : List (List Char × Jv))

/-- JSON whitespace skipping. -/
def skipWs : List Char → List Char
  | [] => []
  | c :: rest =>
    if c = ' ' ∨ c = '\n' ∨ c = '\t' ∨ c = '\r' then skipWs rest else c :: rest

/-- Parse the body of a JSON string literal (after the opening quote) up to
its closing quote, decoding escapes; `\uXXXX` is decoded on the ASCII/BMP
fragment the encoder emits. -/
def parseStringBody : List Char → Option (List Char × List Char)
  | [] => none
  | '"' :: rest => some ([], rest)
  | '\\' :: e :: rest =>
    match e with
    | '"' => (fun p => ('"' :: p.1, p.2)) <$> parseStringBody rest
    | '\\' => (fun p => ('\\' :: p.1, p.2)) <$> parseStringBody rest
    | '/' => (fun p => ('/' :: p.1, p.2)) <$> parseStringBody rest
    | 'b' => (fun p => ('\x08' :: p.1, p.2)) <$> parseStringBody rest
    | 'f' => (fun p => ('\x0c' :: p.1, p.2)) <$> parseStringBody rest
    | 'n' => (fun p => ('\n' :: p.1, p.2)) <$> parseStringBody rest
    | 'r' => (fun p => ('\r' :: p.1, p.2)) <$> parseStringBody rest
    | 't' => (fun p => ('\t' :: p.1, p.2)) <$> parseStringBody rest
    | 'u' =>
      match rest with
      | h1 :: h2 :: h3 :: h4 :: rest2 =>
        match hexDigitVal h1, hexDigitVal h2, hexDigitVal h3, hexDigitVal h4 with
        | some a, some b, some c, some d =>
          (fun p => (Char.ofNat (4096 * a + 256 * b + 16 * c + d) :: p.1, p.2)) <$>
            parseStringBody rest2
        | _, _, _, _ => none
      | _ => none
    | _ => none
  | c :: rest => (fun p => (c :: p.1, p.2)) <$> parseStringBody rest

mutual

/-- Recursive-descent parse of one JSON value (string, null, array or
object), fuelled; `json.load` is run with ample fuel below. -/
def parseValue (fuel : Nat) (s : List Char) : Option (Jv × List Char) :=
  match fuel with
  | 0 => none
  | fuel + 1 =>
    match skipWs s with
    | '"' :: rest => (fun p => (Jv.str p.1, p.2)) <$> parseStringBody rest
    | 'n' :: 'u' :: 'l' :: 'l' :: rest => some (Jv.null, rest)
    | '[' :: rest =>
      match skipWs rest with
      | ']' :: rest2 => some (Jv.arr [], rest2)
      | _ => (fun p => (Jv.arr p.1, p.2)) <$> parseArrayItems fuel rest
    | '{' :: rest =>
      match skipWs rest with
      | '}' :: rest2 => some (Jv.obj [], rest2)
      | _ => (fun p => (Jv.obj p.1, p.2)) <$> parseObjMembers fuel rest
    | _ => none

/-- One or more comma-separated array items up to the closing bracket. -/
def parseArrayItems (fuel : Nat) (s : List Char) : Option (List Jv × List Char) :=
  match fuel with
  | 0 => none
  | fuel + 1 =>
    match parseValue fuel s with
    | none => none
    | some (v, rest) =>
      match skipWs rest with
      | ',' :: rest2 => (fun p => (v :: p.1, p.2)) <$> parseArrayItems fuel rest2
      | ']' :: rest2 => some ([v], rest2)
      | _ => none

/-- One or more comma-separated object members up to the closing brace. -/
def parseObjMembers (fuel : Nat) (s : List Char) :
    Option (List (List Char × Jv) × List Char) :=
  match fuel with
  | 0 => none
  | fuel + 1 =>
    match skipWs s with
    | '"' :: rest =>
      match parseStringBody rest with
      | none => none
      | some (key, rest1) =>
        match skipWs rest1 with
        | ':' :: rest2 =>
          match parseValue fuel rest2 with
          | none => none
          | some (v, rest3) =>
            match skipWs rest3 with
            | ',' :: rest4 =>
              (fun p => ((key, v) :: p.1, p.2)) <$> parseObjMembers fuel rest4
            | '}' :: rest4 => some ([(key, v)], rest4)
            | _ => none
        | _ => none
    | _ => none

end

/-- `json.load` on the chat-history fragment: parse one value and require
only whitespace after it. -/
def json_load (s : List Char) : Option Jv :=
  match parseValue (s.length + 1) s with
  | some (v, rest) => if skipWs rest = [] then some v else none
  | none => none

/-- `ChatMessage(**msg)` applied to a loaded dict of the shape
`save_chat_history` writes: the keys `role`, `content`, `timestamp` in
insertion order, with string role/content and string-or-null timestamp. -/
def chatMessageOfJv : Jv → Option ChatMessage
  | .obj [(k1, .str r), (k2, .str c), (k3, ts)] =>
    if k1 = "role".toList ∧ k2 = "content".toList ∧ k3 = "timestamp".toList then
      match ts with
      | .str t => some ⟨String.mk r, String.mk c, some (String.mk t)⟩
      | .null => some ⟨String.mk r, String.mk c, none⟩
      | _ => none
    else none
  | _ => none

/-- `ChatService.load_chat_history` (src/app/service/chat_service.py lines
396-403): `json.load` the file, then rebuild every `ChatMessage`; any
malformed entry raises (None). -/
def load_chat_history (content : List Char) : Option (List ChatMessage) :=
  match json_load content with
  | some (.arr items) => items.mapM chatMessageOfJv
  | _ => none

/-- The JSON value of an optional timestamp. -/
def tsJv : Option String → Jv
  | some t => .str t.toList
  | none => .null

def msgJv (m : ChatMessage) : Jv :=
  .obj [("role".toList, .str m.role.toList),
        ("content".toList, .str m.content.toList),
        ("timestamp".toList, tsJv m.timestamp)]

/-- C1: requests to POST /search with k outside 1..20 and to POST /rag/query
with k outside 1..10 are rejected by validation with no retrieval performed;
for k inside the bound the handler body runs (exactly one retrieval call). -/
theorem kBoundValidation
    (s : String → Int → Except String (List (Document × ℚ)))
    (r : String → Int → Except String (List Document))
    (c : String → Except String String) (q : String) (k : Int) :
    ((k < 1 ∨ 20 < k) → postSearch s q k = (.validationError, 0)) ∧
    (1 ≤ k → k ≤ 20 → (postSearch s q k).2 = 1) ∧
    ((k < 1 ∨ 10 < k) → ragQuery r c q k = (.validationError, 0, [])) ∧
    (1 ≤ k → k ≤ 10 → (ragQuery r c q k).2.1 = 1) := by
  refine ⟨?_, ?_, ?_, ?_⟩
  · intro h
    have hv : searchRequestKValid k = false := by
      simp only [searchRequestKValid, Bool.and_eq_false_iff, decide_eq_false_iff_not]
      omega
    simp [postSearch, hv]
  · intro h1 h2
    have hv : searchRequestKValid k = true := by
      simp only [searchRequestKValid, Bool.and_eq_true, decide_eq_true_eq]
      omega
    simp only [postSearch, hv, if_true]
    cases s q k <;> simp
  · intro h
    have hv : ragRequestKValid k = false := by
      simp only [ragRequestKValid, Bool.and_eq_false_iff, decide_eq_false_iff_not]
      omega
    simp [ragQuery, hv]
  · intro h1 h2
    have hv : ragRequestKValid k = true := by
      simp only [ragRequestKValid, Bool.and_eq_true, decide_eq_true_eq]
      omega
    simp only [ragQuery, hv, if_true]
    cases r q k with
    | error e => simp
    | ok docs =>
      cases hc : c (buildRagPrompt (buildContext docs) q) <;> simp [hc]

/-- Witness for `kBoundValidation` at k = 0, k = 21, k = 11 and k = 5. -/
theorem kBoundValidation_witness :
    (postSearch (fun _ _ => .ok []) "q" 0 = (.validationError, 0)) ∧
    (postSearch (fun _ _ => .ok []) "q" 21 = (.validationError, 0)) ∧
    ((postSearch (fun _ _ => .ok []) "q" 5).2 = 1) ∧
    (ragQuery (fun _ _ => .ok []) (fun _ => .ok "a") "q" 11 =
      (.validationError, 0, [])) ∧
    ((ragQuery (fun _ _ => .ok []) (fun _ => .ok "a") "q" 5).2.1 = 1) :=
  ⟨(kBoundValidation (fun _ _ => .ok []) (fun _ _ => .ok [])
      (fun _ => .ok "a") "q" 0).1 (Or.inl (by norm_num)),
   (kBoundValidation (fun _ _ => .ok []) (fun _ _ => .ok [])
      (fun _ => .ok "a") "q" 21).1 (Or.inr (by norm_num)),
   (kBoundValidation (fun _ _ => .ok []) (fun _ _ => .ok [])
      (fun _ => .ok "a") "q" 5).2.1 (by norm_num) (by norm_num),
   (kBoundValidation (fun _ _ => .ok []) (fun _ _ => .ok [])
      (fun _ => .ok "a") "q" 11).2.2.1 (Or.inr (by norm_num)),
   (kBoundValidation (fun _ _ => .ok []) (fun _ _ => .ok [])
      (fun _ => .ok "a") "q" 5).2.2.2 (by norm_num) (by norm_num)⟩

/-- C5: any exception raised during retrieval or generation in the /search and
/rag/query handler bodies is caught and reported as HTTP 500 whose detail
string contains the exception message; exactly one retrieval call is made (no
retry) and no partial result is returned. -/
theorem exceptionsSurfaceAs500 (e q : String) (k : Int)
    (s : String → Int → Except String (List (Document × ℚ)))
    (retrieve : String → Int → Except String (List Document))
    (chat : String → Except String String) :
    (1 ≤ k → k ≤ 20 → s q k = .error e →
      ∃ d, postSearch s q k = (.httpException 500 d, 1) ∧ ∃ pre, d = pre ++ e) ∧
    (1 ≤ k → k ≤ 10 → retrieve q k = .error e →
      ∃ d, ragQuery retrieve chat q k = (.httpException 500 d, 1, []) ∧
        ∃ pre, d = pre ++ e) ∧
    (1 ≤ k → k ≤ 10 → ∀ docs, retrieve q k = .ok docs →
      chat (buildRagPrompt (buildContext docs) q) = .error e →
      ∃ d, ragQuery retrieve chat q k =
          (.httpException 500 d, 1, [buildRagPrompt (buildContext docs) q]) ∧
        ∃ pre, d = pre ++ e) := by
  refine ⟨?_, ?_, ?_⟩
  · intro h1 h2 hs
    have hv : searchRequestKValid k = true := by
      simp only [searchRequestKValid, Bool.and_eq_true, decide_eq_true_eq]
      omega
    exact ⟨"검색 중 오류 발생: " ++ e, by simp [postSearch, hv, hs], "검색 중 오류 발생: ", rfl⟩
  · intro h1 h2 hr
    have hv : ragRequestKValid k = true := by
      simp only [ragRequestKValid, Bool.and_eq_true, decide_eq_true_eq]
      omega
    exact ⟨"RAG 질의 중 오류 발생: " ++ e, by simp [ragQuery, hv, hr],
      "RAG 질의 중 오류 발생: ", rfl⟩
  · intro h1 h2 docs hr hc
    have hv : ragRequestKValid k = true := by
      simp only [ragRequestKValid, Bool.and_eq_true, decide_eq_true_eq]
      omega
    exact ⟨"RAG 질의 중 오류 발생: " ++ e, by simp [ragQuery, hv, hr, hc],
      "RAG 질의 중 오류 발생: ", rfl⟩

/-- Witness for `exceptionsSurfaceAs500`: a concrete failing retrieval on
/search, a failing retrieval on /rag/query, and a failing generation. -/
theorem exceptionsSurfaceAs500_witness :
    (∃ d, postSearch (fun _ _ => .error "boom") "q" 5 = (.httpException 500 d, 1) ∧
      ∃ pre, d = pre ++ "boom") ∧
    (∃ d, ragQuery (fun _ _ => .error "boom") (fun _ => .ok "a") "q" 5 =
        (.httpException 500 d, 1, []) ∧ ∃ pre, d = pre ++ "boom") ∧
    (∃ d, ragQuery (fun _ _ => .ok []) (fun _ => .error "gen") "q" 5 =
        (.httpException 500 d, 1, [buildRagPrompt (buildContext []) "q"]) ∧
      ∃ pre, d = pre ++ "gen") :=
  ⟨(exceptionsSurfaceAs500 "boom" "q" 5 (fun _ _ => .error "boom")
      (fun _ _ => .error "boom") (fun _ => .ok "a")).1
      (by norm_num) (by norm_num) rfl,
   (exceptionsSurfaceAs500 "boom" "q" 5 (fun _ _ => .error "boom")
      (fun _ _ => .error "boom") (fun _ => .ok "a")).2.1
      (by norm_num) (by norm_num) rfl,
   (exceptionsSurfaceAs500 "gen" "q" 5 (fun _ _ => .error "gen")
      (fun _ _ => .ok []) (fun _ => .error "gen")).2.2
      (by norm_num) (by norm_num) [] rfl rfl⟩

/-- C3: with a ChatService present, an empty retrieval result yields the empty
context block, the generation call is still made (with that empty context in
the prompt), and the handler returns a normal RAG response. -/
theorem emptyRetrievalEmptyContext
    (retrieve : String → Int → Except String (List Document))
    (chat : String → Except String String) (q a : String) (k : Int)
    (hk1 : 1 ≤ k) (hk2 : k ≤ 10)
    (hr : retrieve q k = .ok ([] : List Document))
    (hc : chat (buildRagPrompt "" q) = .ok a) :
    buildContext [] = "" ∧
    ragQuery retrieve chat q k =
      (.ok { question := q, answer := a, sources := [] }, 1, [buildRagPrompt "" q]) := by
  have hv : ragRequestKValid k = true := by
    simp only [ragRequestKValid, Bool.and_eq_true, decide_eq_true_eq]
    omega
  have hctx : buildContext [] = "" := rfl
  refine ⟨hctx, ?_⟩
  simp [ragQuery, hv, hr, hctx, hc]

/-- Witness for `emptyRetrievalEmptyContext` at a concrete empty store. -/
theorem emptyRetrievalEmptyContext_witness :
    buildContext [] = "" ∧
    ragQuery (fun _ _ => .ok []) (fun _ => .ok "답") "질문" 2 =
      (.ok { question := "질문", answer := "답", sources := [] }, 1,
        [buildRagPrompt "" "질문"]) :=
  emptyRetrievalEmptyContext (fun _ _ => .ok []) (fun _ => .ok "답") "질문" "답" 2
    (by norm_num) (by norm_num) rfl rfl

lemma enumFrom_map_labeled (i : Nat) (ds : List Document) :
    (List.enumFrom i ds).map
        (fun p => "[문서 " ++ toString (p.1 + 1) ++ "]\n" ++ p.2.page_content)
      = labeledContents (i + 1) ds := by
  induction ds generalizing i with
  | nil => rfl
  | cons d ds ih => simp [List.enumFrom, labeledContents, ih]

lemma buildContext_eq_specContextBlock (docs : List Document) :
    buildContext docs = specContextBlock docs := by
  unfold buildContext specContextBlock
  rw [List.enum, enumFrom_map_labeled]

/-- C4: for every retrieved document sequence, the context block the
/rag/query handler passes to generation is exactly the documents' contents in
retrieval order, the i-th prefixed with "[문서 i]" on its own line, joined by
blank lines. -/
theorem contextBlockMatchesSpec
    (retrieve : String → Int → Except String (List Document))
    (chat : String → Except String String) (q : String) (k : Int)
    (docs : List Document) (hk1 : 1 ≤ k) (hk2 : k ≤ 10)
    (hr : retrieve q k = .ok docs) :
    buildContext docs = specContextBlock docs ∧
    (ragQuery retrieve chat q k).2.2 = [buildRagPrompt (specContextBlock docs) q] := by
  have hv : ragRequestKValid k = true := by
    simp only [ragRequestKValid, Bool.and_eq_true, decide_eq_true_eq]
    omega
  refine ⟨buildContext_eq_specContextBlock docs, ?_⟩
  simp only [ragQuery, hv, if_true, hr, buildContext_eq_specContextBlock]
  cases hc : chat (buildRagPrompt (specContextBlock docs) q) <;> simp [hc]

/-- Witness for `contextBlockMatchesSpec` on two concrete documents, checking
the exact rendered context block. -/
theorem contextBlockMatchesSpec_witness :
    buildContext [⟨"가 내용", []⟩, ⟨"나 내용", []⟩] =
      specContextBlock [⟨"가 내용", []⟩, ⟨"나 내용", []⟩] ∧
    (ragQuery (fun _ _ => .ok [⟨"가 내용", []⟩, ⟨"나 내용", []⟩])
        (fun _ => .ok "답") "q" 2).2.2 =
      [buildRagPrompt (specContextBlock [⟨"가 내용", []⟩, ⟨"나 내용", []⟩]) "q"] :=
  contextBlockMatchesSpec (fun _ _ => .ok [⟨"가 내용", []⟩, ⟨"나 내용", []⟩])
    (fun _ => .ok "답") "q" 2 [⟨"가 내용", []⟩, ⟨"나 내용", []⟩]
    (by norm_num) (by norm_num) rfl

/-- C6: with no OpenAI API key configured, `get_embeddings` returns the stub;
the stub's `embed_query` returns the same constant 5-dimensional vector for
every input, and `embed_documents` returns exactly `texts.length` copies of
that vector, independent of the texts. -/
theorem stubEmbeddingsConstant (t : String) (ts : List String) :
    get_embeddings none = .simpleEmbeddings ∧
    SimpleEmbeddings.embed_query t = constEmbeddingVector ∧
    constEmbeddingVector.length = 5 ∧
    SimpleEmbeddings.embed_documents ts = List.replicate ts.length constEmbeddingVector := by
  refine ⟨rfl, rfl, rfl, ?_⟩
  induction ts with
  | nil => rfl
  | cons x xs ih => simp only [SimpleEmbeddings.embed_documents, List.map_cons,
      List.length_cons, List.replicate_succ] at ih ⊢; exact congrArg _ ih

lemma renderMessages_append (xs ys : List ChatMessage) :
    renderMessages (xs ++ ys) = renderMessages xs ++ renderMessages ys := by
  induction xs with
  | nil => simp [renderMessages]
  | cons x xs ih => simp [renderMessages, ih, String.append_assoc]

/-- C7: each `chat` call without reset appends exactly the user message and
then the generated assistant reply to the history; the returned text is the
appended assistant content; after `chat gen h "hi"` then `chat gen _ "there"`
the transcript rendered by the second call contains both user turns in order;
after `clear_history` the transcript of the next call contains only the new
turn. -/
theorem chatServiceHistory (generate : String → String)
    (h : List ChatMessage) (hi there m : String) :
    ((ChatService.chat generate h hi false).2 =
      h ++ [{ role := "user", content := hi },
            { role := "assistant", content := (ChatService.chat generate h hi false).1 }]) ∧
    ((ChatService.chat generate h hi false).1 =
      generate (ChatService.format_chat_history
        (h ++ [{ role := "user", content := hi }]))) ∧
    (∃ x y z,
      ChatService.format_chat_history
          ((ChatService.chat generate h hi false).2 ++
            [{ role := "user", content := there }]) =
        x ++ ("### 사용자:\n" ++ hi ++ "\n") ++ y ++
          ("### 사용자:\n" ++ there ++ "\n") ++ z) ∧
    (ChatService.format_chat_history
        (ChatService.clear_history h ++ [{ role := "user", content := m }]) =
      "### 사용자:\n" ++ m ++ "\n" ++ "### 어시스턴트:\n") := by
  refine ⟨?_, ?_, ?_, ?_⟩
  · simp [ChatService.chat]
  · simp [ChatService.chat]
  · refine ⟨renderMessages h,
      "### 어시스턴트:\n" ++
        (ChatService.chat generate h hi false).1 ++ "\n", "### 어시스턴트:\n", ?_⟩
    simp only [ChatService.chat, ChatService.format_chat_history, List.append_assoc,
      List.cons_append, List.nil_append, renderMessages_append]
    simp only [renderMessages, renderMessage, if_true, reduceIte]
    simp [String.append_assoc]
  · rw [ChatService.clear_history, ChatService.format_chat_history]
    simp [renderMessages, renderMessage, String.append_assoc]

lemma waitFromRetry_exhausted (connectOk : Nat → Bool) (r : Nat) (h : 30 ≤ r) :
    waitFromRetry connectOk r = .failed r (2 * r) := by
  rw [waitFromRetry]
  simp [Nat.not_lt.2 h]

lemma waitFromRetry_attempts_le (connectOk : Nat → Bool) :
    ∀ n r, 30 - r ≤ n → r ≤ 30 → (waitFromRetry connectOk r).attempts ≤ 30 := by
  intro n
  induction n with
  | zero =>
    intro r hn hr
    have h30 : r = 30 := by omega
    rw [h30, waitFromRetry_exhausted connectOk 30 (le_refl 30)]
    simp [WaitResult.attempts]
  | succ n ih =>
    intro r hn hr
    rw [waitFromRetry]
    by_cases hlt : r < 30
    · simp only [hlt, if_true]
      by_cases hc : connectOk r = true
      · simp [hc, WaitResult.attempts]; omega
      · simp only [hc, Bool.false_eq_true, if_false]
        exact ih (r + 1) (by omega) (by omega)
    · simp [hlt, WaitResult.attempts]; omega

lemma waitFromRetry_first_success (connectOk : Nat → Bool) :
    ∀ n r k, 30 - r ≤ n → r ≤ k → k < 30 → connectOk k = true →
    (∀ j, r ≤ j → j < k → connectOk j = false) →
    waitFromRetry connectOk r = .connected (k + 1) (2 * k) := by
  intro n
  induction n with
  | zero =>
    intro r k hn hrk hk _ _
    omega
  | succ n ih =>
    intro r k hn hrk hk hck hprev
    rw [waitFromRetry]
    have hlt : r < 30 := by omega
    simp only [hlt, if_true]
    by_cases hrk' : r = k
    · subst hrk'; simp [hck]
    · have hcr : connectOk r = false := hprev r (le_refl r) (by omega)
      simp only [hcr, Bool.false_eq_true, if_false]
      exact ih (r + 1) k (by omega) (by omega) hk hck
        (fun j hj1 hj2 => hprev j (by omega) hj2)

lemma waitFromRetry_all_fail (connectOk : Nat → Bool) :
    ∀ n r, 30 - r ≤ n → r ≤ 30 → (∀ k, k < 30 → connectOk k = false) →
    waitFromRetry connectOk r = .failed 30 60 := by
  intro n
  induction n with
  | zero =>
    intro r hn hr hall
    have h30 : r = 30 := by omega
    rw [h30, waitFromRetry_exhausted connectOk 30 (le_refl 30)]
  | succ n ih =>
    intro r hn hr hall
    by_cases hlt : r < 30
    · rw [waitFromRetry]
      simp only [hlt, if_true, hall r hlt, Bool.false_eq_true, if_false]
      exact ih (r + 1) (by omega) (by omega) hall
    · have h30 : r = 30 := by omega
      rw [h30, waitFromRetry_exhausted connectOk 30 (le_refl 30)]

/-- C8: `wait_for_postgres` makes at most 30 connection attempts, sleeping a
fixed 2 seconds after each failed one; it returns as soon as the first
successful attempt occurs (k prior failures give 2k seconds of sleep), and
raises after 30 consecutive failures, having slept 60 seconds — so it always
terminates within a bounded number of attempts. -/
theorem waitForPostgresBounded (connectOk : Nat → Bool) :
    (wait_for_postgres connectOk).attempts ≤ 30 ∧
    (∀ k, k < 30 → connectOk k = true → (∀ j, j < k → connectOk j = false) →
      wait_for_postgres connectOk = .connected (k + 1) (2 * k)) ∧
    ((∀ k, k < 30 → connectOk k = false) →
      wait_for_postgres connectOk = .failed 30 60) := by
  refine ⟨?_, ?_, ?_⟩
  · exact waitFromRetry_attempts_le connectOk 30 0 (by omega) (by omega)
  · intro k hk hck hprev
    exact waitFromRetry_first_success connectOk 30 0 k (by omega) (by omega) hk hck
      (fun j _ hj2 => hprev j hj2)
  · intro hall
    exact waitFromRetry_all_fail connectOk 30 0 (by omega) (by omega) hall

/-- Witness for `waitForPostgresBounded`: success on the third attempt, and
the all-failures case. -/
theorem waitForPostgresBounded_witness :
    (wait_for_postgres (fun n => n == 2)).attempts ≤ 30 ∧
    wait_for_postgres (fun n => n == 2) = .connected 3 4 ∧
    wait_for_postgres (fun _ => false) = .failed 30 60 :=
  ⟨(waitForPostgresBounded (fun n => n == 2)).1,
   (waitForPostgresBounded (fun n => n == 2)).2.1 2 (by norm_num) (by decide)
     (by decide),
   (waitForPostgresBounded (fun _ => false)).2.2 (fun k _ => rfl)⟩

lemma filter_name_eq_nil (A : List (String × Nat)) (u : Nat)
    (huniq : ∀ c ∈ A, c.1 = "langchain_collection" → c.2 = u) :
    List.filter (fun c => c.1 = "langchain_collection")
      (List.filter (fun c => c.2 ≠ u) A) = [] := by
  rw [List.filter_eq_nil_iff]
  intro c hc
  rw [List.mem_filter] at hc
  obtain ⟨hmem, hcond⟩ := hc
  simp only [decide_eq_true_eq] at hcond ⊢
  intro hname
  exact hcond (huniq c hmem hname)

lemma selectCollectionUuid_recreated (A : List (String × Nat)) (u fresh : Nat)
    (E : List (Nat × Document))
    (huniq : ∀ c ∈ A, c.1 = "langchain_collection" → c.2 = u) :
    selectCollectionUuid
      ⟨List.filter (fun c => c.2 ≠ u) A ++ [("langchain_collection", fresh)], E⟩
      "langchain_collection" = some fresh := by
  unfold selectCollectionUuid
  rw [List.filter_append, filter_name_eq_nil A u huniq]
  rfl

/-- C2: when the dimensionality-mismatch recovery runs against a state whose
(unique) collection named `langchain_collection` has uuid `u`, and the fresh
uuid differs from `u`, then afterwards no embedding row of the old collection
and no collection record with uuid `u` remains, the collection exists again
under the fresh uuid, and the sample documents have been re-ingested under
it. -/
theorem dimensionMismatchRecoveryDropsOldRows (st : PGState) (u freshUuid : Nat)
    (hfound : selectCollectionUuid st "langchain_collection" = some u)
    (huniq : ∀ c ∈ st.collections, c.1 = "langchain_collection" → c.2 = u)
    (hfresh : freshUuid ≠ u) :
    (∀ e ∈ (recoverVectorDimensionMismatch st freshUuid).embeddings, e.1 ≠ u) ∧
    (∀ c ∈ (recoverVectorDimensionMismatch st freshUuid).collections, c.2 ≠ u) ∧
    selectCollectionUuid (recoverVectorDimensionMismatch st freshUuid)
      "langchain_collection" = some freshUuid ∧
    (recoverVectorDimensionMismatch st freshUuid).embeddings =
      st.embeddings.filter (fun e => e.1 ≠ u) ++
        (sample_docs.map fun d => (freshUuid, d)) ++
        (sample_docs.map fun d => (freshUuid, d)) := by
  have hnone : selectCollectionUuid
      { collections := st.collections.filter fun c => c.2 ≠ u,
        embeddings := st.embeddings.filter fun e => e.1 ≠ u : PGState }
      "langchain_collection" = none := by
    unfold selectCollectionUuid
    rw [filter_name_eq_nil st.collections u huniq]
    rfl
  have hst2 : add_sample_documents
      { collections := st.collections.filter fun c => c.2 ≠ u,
        embeddings := st.embeddings.filter fun e => e.1 ≠ u } freshUuid =
      { collections := st.collections.filter (fun c => c.2 ≠ u) ++
          [("langchain_collection", freshUuid)],
        embeddings := st.embeddings.filter (fun e => e.1 ≠ u) ++
          sample_docs.map fun d => (freshUuid, d) } := by
    rw [add_sample_documents, hnone]
  have hfind2 := selectCollectionUuid_recreated st.collections u freshUuid
    (st.embeddings.filter (fun e => e.1 ≠ u) ++ sample_docs.map fun d => (freshUuid, d))
    huniq
  have hresult : recoverVectorDimensionMismatch st freshUuid =
      { collections := st.collections.filter (fun c => c.2 ≠ u) ++
          [("langchain_collection", freshUuid)],
        embeddings := (st.embeddings.filter (fun e => e.1 ≠ u) ++
            sample_docs.map fun d => (freshUuid, d)) ++
          sample_docs.map fun d => (freshUuid, d) } := by
    rw [recoverVectorDimensionMismatch, hfound]
    simp only [hst2]
    rw [add_sample_documents, hfind2]
  refine ⟨?_, ?_, ?_, ?_⟩
  · intro e he
    rw [hresult] at he
    simp only [List.mem_append, List.mem_filter, List.mem_map] at he
    rcases he with (⟨_, hcond⟩ | ⟨d, _, hd⟩) | ⟨d, _, hd⟩
    · simpa using hcond
    · intro h1; rw [← hd] at h1; exact hfresh h1
    · intro h1; rw [← hd] at h1; exact hfresh h1
  · intro c hc
    rw [hresult] at hc
    simp only [List.mem_append, List.mem_filter, List.mem_singleton] at hc
    rcases hc with ⟨_, hcond⟩ | hcond
    · simpa using hcond
    · rw [hcond]; exact hfresh
  · rw [hresult]
    exact selectCollectionUuid_recreated st.collections u freshUuid _ huniq
  · rw [hresult, List.append_assoc]

/-- Witness for `dimensionMismatchRecoveryDropsOldRows`: a one-collection
store holding a single old row under uuid 1, recovered with fresh uuid 2. -/
theorem dimensionMismatchRecovery_witness :
    (∀ e ∈ (recoverVectorDimensionMismatch
        ⟨[("langchain_collection", 1)], [(1, ⟨"old", []⟩)]⟩ 2).embeddings, e.1 ≠ 1) ∧
    (∀ c ∈ (recoverVectorDimensionMismatch
        ⟨[("langchain_collection", 1)], [(1, ⟨"old", []⟩)]⟩ 2).collections, c.2 ≠ 1) ∧
    selectCollectionUuid (recoverVectorDimensionMismatch
        ⟨[("langchain_collection", 1)], [(1, ⟨"old", []⟩)]⟩ 2)
      "langchain_collection" = some 2 ∧
    (recoverVectorDimensionMismatch
        ⟨[("langchain_collection", 1)], [(1, ⟨"old", []⟩)]⟩ 2).embeddings =
      ([(1, ⟨"old", []⟩)] : List (Nat × Document)).filter (fun e => e.1 ≠ 1) ++
        (sample_docs.map fun d => ((2 : Nat), d)) ++
        (sample_docs.map fun d => ((2 : Nat), d)) :=
  dimensionMismatchRecoveryDropsOldRows
    ⟨[("langchain_collection", 1)], [(1, ⟨"old", []⟩)]⟩ 1 2 rfl
    (by intro c hc _; simp only [List.mem_singleton] at hc; rw [hc]) (by norm_num)

lemma splitOnChar_ne_nil (sep : Char) (s : List Char) : splitOnChar sep s ≠ [] := by
  cases s with
  | nil => simp [splitOnChar]
  | cons c rest =>
    rw [splitOnChar]
    split <;> split <;> simp

lemma splitOnChar_no_sep (sep : Char) (s : List Char)
    (h : ∀ c ∈ s, c ≠ sep) : splitOnChar sep s = [s] := by
  induction s with
  | nil => rfl
  | cons c rest ih =>
    rw [splitOnChar, ih (fun x hx => h x (List.mem_cons_of_mem c hx))]
    simp [h c (List.mem_cons_self c rest)]

lemma splitOnChar_append_sep (sep : Char) (a r : List Char)
    (h : ∀ c ∈ a, c ≠ sep) :
    splitOnChar sep (a ++ sep :: r) = a :: splitOnChar sep r := by
  induction a with
  | nil =>
    rw [List.nil_append, splitOnChar]
    cases hr : splitOnChar sep r with
    | nil => exact absurd hr (splitOnChar_ne_nil sep r)
    | cons cur parts => simp
  | cons c a ih =>
    rw [List.cons_append, splitOnChar,
      ih (fun x hx => h x (List.mem_cons_of_mem c hx))]
    simp [h c (List.mem_cons_self c a)]

lemma splitOnFirst_none (sep : Char) (s : List Char)
    (h : ∀ c ∈ s, c ≠ sep) : splitOnFirst sep s = none := by
  induction s with
  | nil => rfl
  | cons c rest ih =>
    rw [splitOnFirst, ih (fun x hx => h x (List.mem_cons_of_mem c hx))]
    simp [h c (List.mem_cons_self c rest)]

lemma splitOnFirst_append (sep : Char) (a r : List Char)
    (h : ∀ c ∈ a, c ≠ sep) :
    splitOnFirst sep (a ++ sep :: r) = some (a, r) := by
  induction a with
  | nil => simp [splitOnFirst]
  | cons c a ih =>
    rw [List.cons_append, splitOnFirst,
      ih (fun x hx => h x (List.mem_cons_of_mem c hx))]
    simp [h c (List.mem_cons_self c a)]

lemma unquoteChars_id (s : List Char) (h : ∀ c ∈ s, c ≠ '%') :
    unquoteChars s = s := by
  induction s with
  | nil => rfl
  | cons c rest ih =>
    have hc : c ≠ '%' := h c (List.mem_cons_self c rest)
    have hrest := ih fun x hx => h x (List.mem_cons_of_mem c hx)
    rw [unquoteChars.eq_def]
    split <;> simp_all

lemma plusToSpace_id (s : List Char) : (∀ c ∈ s, c ≠ '+') → plusToSpace s = s := by
  induction s with
  | nil => intro _; rfl
  | cons c rest ih =>
    intro h
    have ht := ih fun x hx => h x (List.mem_cons_of_mem c hx)
    unfold plusToSpace at ht ⊢
    rw [List.map_cons, ht]
    simp [h c (List.mem_cons_self c rest)]

lemma alwaysSafe_ne (c x : Char) (hc : alwaysSafeChar c = true)
    (hx : alwaysSafeChar x = false) : c ≠ x := by
  intro h; rw [h, hx] at hc; exact Bool.false_ne_true hc

lemma unquote_plus_safe (s : List Char) (h : ∀ c ∈ s, alwaysSafeChar c) :
    unquote_plus s = s := by
  unfold unquote_plus
  rw [plusToSpace_id s (fun c hc => alwaysSafe_ne c '+' (h c hc) (by decide)),
    unquoteChars_id s (fun c hc => alwaysSafe_ne c '%' (h c hc) (by decide))]

lemma quote_plus_safe (s : List Char) (h : ∀ c ∈ s, alwaysSafeChar c) :
    quote_plus s = s := by
  unfold quote_plus
  induction s with
  | nil => rfl
  | cons c rest ih =>
    rw [List.map_cons, List.flatten_cons,
      ih fun x hx => h x (List.mem_cons_of_mem c hx)]
    simp [quotePlusChar, h c (List.mem_cons_self c rest)]

lemma safePairs_tail {p : List Char × List Char}
    {ps : List (List Char × List Char)} (h : SafePairs (p :: ps)) :
    SafePairs ps :=
  fun x hx => h x (List.mem_cons_of_mem p hx)

lemma renderQueryPairs_cons (p : List Char × List Char)
    (ps : List (List Char × List Char)) (hne : ps ≠ []) :
    renderQueryPairs (p :: ps) = (p.1 ++ '=' :: p.2) ++ '&' :: renderQueryPairs ps := by
  cases ps with
  | nil => exact absurd rfl hne
  | cons q qs =>
    unfold renderQueryPairs
    rw [List.map_cons, List.map_cons, List.intercalate, List.intercalate,
      List.intersperse_cons_cons, List.flatten_cons, List.flatten_cons]
    simp [List.append_assoc]

lemma renderQueryPairs_singleton (p : List Char × List Char) :
    renderQueryPairs [p] = p.1 ++ '=' :: p.2 := by
  unfold renderQueryPairs
  simp [List.intercalate]

lemma no_amp_in_part (p : List Char × List Char)
    (hks : ∀ c ∈ p.1, alwaysSafeChar c) (hvs : ∀ c ∈ p.2, alwaysSafeChar c) :
    ∀ c ∈ p.1 ++ '=' :: p.2, c ≠ '&' := by
  intro c hc
  rcases List.mem_append.1 hc with hc | hc
  · exact alwaysSafe_ne c '&' (hks c hc) (by decide)
  · rcases List.mem_cons.1 hc with hc | hc
    · rw [hc]; decide
    · exact alwaysSafe_ne c '&' (hvs c hc) (by decide)

lemma parse_qsl_one_part (p : List Char × List Char) (hk : p.1 ≠ [])
    (hv : p.2 ≠ []) (hks : ∀ c ∈ p.1, alwaysSafeChar c)
    (hvs : ∀ c ∈ p.2, alwaysSafeChar c) (more : List (List Char)) :
    List.filterMap (fun name_value =>
        if name_value = [] then none
        else
          match splitOnFirst '=' name_value with
          | none => none
          | some (name, value) =>
            if value = [] then none
            else some (unquote_plus name, unquote_plus value))
      ((p.1 ++ '=' :: p.2) :: more) =
      (p.1, p.2) :: List.filterMap (fun name_value =>
        if name_value = [] then none
        else
          match splitOnFirst '=' name_value with
          | none => none
          | some (name, value) =>
            if value = [] then none
            else some (unquote_plus name, unquote_plus value)) more := by
  rw [List.filterMap_cons]
  have hne : ¬(p.1 ++ '=' :: p.2 = []) := by simp
  have hsplitFirst : splitOnFirst '=' (p.1 ++ '=' :: p.2) = some (p.1, p.2) :=
    splitOnFirst_append '=' p.1 p.2
      (fun c hc => alwaysSafe_ne c '=' (hks c hc) (by decide))
  simp only [hne, if_false, hsplitFirst, hv, if_neg,
    unquote_plus_safe p.1 hks, unquote_plus_safe p.2 hvs]

lemma parse_qsl_render (ps : List (List Char × List Char)) (h : SafePairs ps) :
    parse_qsl (renderQueryPairs ps) = ps := by
  induction ps with
  | nil => rfl
  | cons p ps ih =>
    obtain ⟨hk, hv, hks, hvs⟩ := h p (List.mem_cons_self p ps)
    by_cases hps : ps = []
    · subst hps
      unfold parse_qsl
      rw [renderQueryPairs_singleton,
        splitOnChar_no_sep '&' (p.1 ++ '=' :: p.2) (no_amp_in_part p hks hvs),
        parse_qsl_one_part p hk hv hks hvs []]
      rfl
    · unfold parse_qsl at ih ⊢
      rw [renderQueryPairs_cons p ps hps,
        splitOnChar_append_sep '&' (p.1 ++ '=' :: p.2) _ (no_amp_in_part p hks hvs),
        parse_qsl_one_part p hk hv hks hvs _, ih (safePairs_tail h)]

lemma dictUpsert_absent (d : List (List Char × List Char)) (k v : List Char)
    (h : ∀ p ∈ d, p.1 ≠ k) : dictUpsert d k v = d ++ [(k, v)] := by
  unfold dictUpsert
  have : d.any (fun p => p.1 = k) = false := by
    rw [List.any_eq_false]
    intro p hp
    simp [h p hp]
  simp [this]

lemma pythonDict_aux (ps acc : List (List Char × List Char))
    (hnd : (ps.map Prod.fst).Nodup)
    (hdisj : ∀ p ∈ acc, ∀ q ∈ ps, p.1 ≠ q.1) :
    ps.foldl (fun d p => dictUpsert d p.1 p.2) acc = acc ++ ps := by
  induction ps generalizing acc with
  | nil => simp
  | cons p ps ih =>
    rw [List.foldl_cons,
      dictUpsert_absent acc p.1 p.2
        (fun q hq => hdisj q hq p (List.mem_cons_self p ps))]
    rw [List.map_cons, List.nodup_cons] at hnd
    have hd2 : ∀ x ∈ acc ++ [(p.1, p.2)], ∀ q ∈ ps, x.1 ≠ q.1 := by
      intro x hx q hq
      rcases List.mem_append.1 hx with hx | hx
      · exact hdisj x hx q (List.mem_cons_of_mem p hq)
      · rw [List.mem_singleton] at hx
        rw [hx]
        intro hcontra
        exact hnd.1 (hcontra ▸ List.mem_map_of_mem Prod.fst hq)
    rw [ih (acc ++ [(p.1, p.2)]) hnd.2 hd2]
    simp

lemma pythonDict_nodup (ps : List (List Char × List Char))
    (hnd : (ps.map Prod.fst).Nodup) : pythonDict ps = ps := by
  unfold pythonDict
  rw [pythonDict_aux ps [] hnd (by simp)]
  rfl

lemma urlencode_render (ps : List (List Char × List Char)) (h : SafePairs ps) :
    urlencode ps = renderQueryPairs ps := by
  unfold urlencode renderQueryPairs
  congr 1
  apply List.map_congr_left
  intro p hp
  obtain ⟨_, _, hks, hvs⟩ := h p hp
  rw [quote_plus_safe p.1 hks, quote_plus_safe p.2 hvs]

lemma safePairs_filter (ps : List (List Char × List Char)) (h : SafePairs ps)
    (f : List Char × List Char → Bool) : SafePairs (ps.filter f) :=
  fun p hp => h p (List.mem_of_mem_filter hp)

/-- The query-dict rewrite on a wellformed rendered query: exactly the
`channel_binding` entries disappear. -/
lemma sanitizeQuery_render (ps : List (List Char × List Char)) (h : SafePairs ps)
    (hnd : (ps.map Prod.fst).Nodup) :
    sanitizeQuery (renderQueryPairs ps) =
      renderQueryPairs (ps.filter fun p => p.1 ≠ "channel_binding".toList) := by
  unfold sanitizeQuery
  rw [parse_qsl_render ps h, pythonDict_nodup ps hnd]
  unfold dictPop
  exact urlencode_render _ (safePairs_filter ps h _)

lemma takeWhile_append_of (p : Char → Bool) (a : List Char) (x : Char)
    (r : List Char) :
    (∀ c ∈ a, p c = true) → p x = false → (a ++ x :: r).takeWhile p = a := by
  induction a with
  | nil => intro _ hx; simp [List.takeWhile_cons, hx]
  | cons c a ih =>
    intro ha hx
    rw [List.cons_append, List.takeWhile_cons]
    simp only [ha c (List.mem_cons_self c a), if_true,
      ih (fun y hy => ha y (List.mem_cons_of_mem c hy)) hx]

lemma dropWhile_append_of (p : Char → Bool) (a : List Char) (x : Char)
    (r : List Char) :
    (∀ c ∈ a, p c = true) → p x = false → (a ++ x :: r).dropWhile p = x :: r := by
  induction a with
  | nil => intro _ hx; simp [List.dropWhile_cons, hx]
  | cons c a ih =>
    intro ha hx
    rw [List.cons_append, List.dropWhile_cons]
    simp only [ha c (List.mem_cons_self c a), if_true,
      ih (fun y hy => ha y (List.mem_cons_of_mem c hy)) hx]

lemma span_append_of (p : Char → Bool) (a : List Char) (x : Char) (r : List Char)
    (ha : ∀ c ∈ a, p c = true) (hx : p x = false) :
    List.span p (a ++ x :: r) = (a, x :: r) := by
  rw [List.span_eq_take_drop, takeWhile_append_of p a x r ha hx,
    dropWhile_append_of p a x r ha hx]

lemma urlparse_structured (netloc db q : List Char)
    (hn : ∀ c ∈ netloc, c ≠ '/' ∧ c ≠ '?' ∧ c ≠ '#') (hnl : netloc ≠ [])
    (hdb : ∀ c ∈ db, c ≠ '/' ∧ c ≠ '?' ∧ c ≠ '#' ∧ c ≠ ';')
    (hq : ∀ c ∈ q, c ≠ '#') :
    urlparseChars ("postgresql://".toList ++ netloc ++ '/' :: db ++ '?' :: q) =
      ⟨"postgresql".toList, netloc, '/' :: db, [], q, []⟩ := by
  have hurl : ("postgresql://".toList ++ netloc ++ '/' :: db ++ '?' :: q) =
      "postgresql".toList ++ ':' :: ('/' :: '/' :: (netloc ++ '/' :: (db ++ '?' :: q))) := by
    rw [List.append_assoc ("postgresql://".toList ++ netloc) ('/' :: db) ('?' :: q),
      List.append_assoc "postgresql://".toList netloc, List.cons_append]
    rfl
  have h1 : splitOnFirst ':'
      ("postgresql".toList ++ ':' :: ('/' :: '/' :: (netloc ++ '/' :: (db ++ '?' :: q)))) =
      some ("postgresql".toList, '/' :: '/' :: (netloc ++ '/' :: (db ++ '?' :: q))) :=
    splitOnFirst_append ':' _ _ (by decide)
  have hlower : "postgresql".toList.map Char.toLower = "postgresql".toList := by decide
  have hspan : (netloc ++ '/' :: (db ++ '?' :: q)).span
      (fun c => !(c = '/' || c = '?' || c = '#')) = (netloc, '/' :: (db ++ '?' :: q)) := by
    refine span_append_of _ netloc '/' _ (fun c hc => ?_) (by decide)
    simp [(hn c hc).1, (hn c hc).2.1, (hn c hc).2.2]
  have h3 : splitOnFirst '#' ('/' :: (db ++ '?' :: q)) = none := by
    refine splitOnFirst_none '#' _ fun c hc => ?_
    rcases List.mem_cons.1 hc with h | h
    · rw [h]; decide
    · rcases List.mem_append.1 h with h | h
      · exact (hdb c h).2.2.1
      · rcases List.mem_cons.1 h with h | h
        · rw [h]; decide
        · exact hq c h
  have h4 : splitOnFirst '?' ('/' :: (db ++ '?' :: q)) = some ('/' :: db, q) := by
    have h4a := splitOnFirst_append '?' ('/' :: db) q (by
      intro c hc
      rcases List.mem_cons.1 hc with h | h
      · rw [h]; decide
      · exact (hdb c h).2.1)
    rw [List.cons_append] at h4a
    exact h4a
  have h5 : splitPathParams ('/' :: db) = ('/' :: db, []) := by
    unfold splitPathParams splitOnLast
    have hrev : ('/' :: db).reverse = db.reverse ++ '/' :: ([] : List Char) := by
      simp
    rw [hrev, splitOnFirst_append '/' db.reverse [] (by
      intro c hc
      rw [List.mem_reverse] at hc
      exact (hdb c hc).1)]
    simp only [List.reverse_nil, List.reverse_reverse]
    rw [splitOnFirst_none ';' db (fun c hc => (hdb c hc).2.2.2)]
  have hcond : ("postgresql".toList ≠ [] ∧
      ("postgresql".toList.head?.getD ' ').isAlpha = true ∧
      "postgresql".toList.all schemeChar = true) := by decide
  rw [hurl]
  simp only [urlparseChars, h1, if_pos hcond, hlower, hspan, h3, h4, h5]

lemma renderQueryPairs_chars (ps : List (List Char × List Char))
    (h : SafePairs ps) :
    ∀ c ∈ renderQueryPairs ps, alwaysSafeChar c ∨ c = '=' ∨ c = '&' := by
  induction ps with
  | nil => intro c hc; simp [renderQueryPairs, List.intercalate] at hc
  | cons p ps ih =>
    intro c hc
    obtain ⟨_, _, hks, hvs⟩ := h p (List.mem_cons_self p ps)
    by_cases hps : ps = []
    · subst hps
      rw [renderQueryPairs_singleton] at hc
      rcases List.mem_append.1 hc with hx | hx
      · exact Or.inl (hks c hx)
      · rcases List.mem_cons.1 hx with hx | hx
        · exact Or.inr (Or.inl hx)
        · exact Or.inl (hvs c hx)
    · rw [renderQueryPairs_cons p ps hps] at hc
      rcases List.mem_append.1 hc with hx | hx
      · rcases List.mem_append.1 hx with hy | hy
        · exact Or.inl (hks c hy)
        · rcases List.mem_cons.1 hy with hy | hy
          · exact Or.inr (Or.inl hy)
          · exact Or.inl (hvs c hy)
      · rcases List.mem_cons.1 hx with hy | hy
        · exact Or.inr (Or.inr hy)
        · exact ih (safePairs_tail h) c hy

lemma urlunparse_structured (netloc db q2 : List Char) (hnl : netloc ≠ []) :
    urlunparseChars ⟨"postgresql".toList, netloc, '/' :: db, [], q2, []⟩ =
      "postgresql://".toList ++ netloc ++ '/' :: db ++ optQuery q2 := by
  have hpre : "postgresql://".toList =
      "postgresql".toList ++ ':' :: '/' :: '/' :: ([] : List Char) := by decide
  unfold urlunparseChars optQuery
  simp only [reduceIte, hnl, ne_eq, not_false_eq_true, true_or, if_true,
    not_true_eq_false, List.take_cons, List.take_zero]
  by_cases hq2 : q2 = []
  · simp only [hq2, if_pos rfl, reduceIte, hpre]
    simp [List.append_assoc]
  · simp only [hq2, if_neg hq2, reduceIte, hpre]
    simp [List.append_assoc]

/-- C9 counterexample: `Settings.database_url` does not preserve every
non-`channel_binding` query parameter — a parameter given with an empty value
(here `a=`) is dropped by `parse_qsl` along with `channel_binding`. -/
theorem databaseUrlDropsBlankParam :
    Settings.database_url
        (some "postgresql://user:pw@host:5432/db?a=&channel_binding=require&sslmode=require".toList)
        [] [] [] [] [] =
      "postgresql://user:pw@host:5432/db?sslmode=require".toList ∧
    "postgresql://user:pw@host:5432/db?sslmode=require".toList ≠
      "postgresql://user:pw@host:5432/db?a=&sslmode=require".toList := by
  exact ⟨by decide, by decide⟩

/-- C9 (amended): for a configured non-empty postgres DATABASE_URL whose
query is a '&'-separated sequence of `name=value` pairs with distinct keys,
non-empty values and unreserved characters, `Settings.database_url` returns
the URL with exactly the `channel_binding` parameter removed, preserving the
scheme, the credentials/host/port (netloc), the database path and every
other parameter in order; with no DATABASE_URL configured it assembles the
URL from the POSTGRES_* fields.  (In general a parameter with an empty value
is dropped and repeated keys are collapsed, see
`databaseUrlDropsBlankParam`.) -/
theorem databaseUrlSanitization (netloc db : List Char)
    (ps : List (List Char × List Char))
    (user pw host port dbname : List Char)
    (hn : ∀ c ∈ netloc, c ≠ '/' ∧ c ≠ '?' ∧ c ≠ '#') (hnl : netloc ≠ [])
    (hdb : ∀ c ∈ db, c ≠ '/' ∧ c ≠ '?' ∧ c ≠ '#' ∧ c ≠ ';')
    (hps : SafePairs ps) (hkeys : (ps.map Prod.fst).Nodup) :
    Settings.database_url
        (some ("postgresql://".toList ++ netloc ++ '/' :: db ++
          '?' :: renderQueryPairs ps)) user pw host port dbname =
      "postgresql://".toList ++ netloc ++ '/' :: db ++
        optQuery (renderQueryPairs
          (ps.filter fun p => p.1 ≠ "channel_binding".toList)) ∧
    Settings.database_url none user pw host port dbname =
      "postgresql://".toList ++ user ++ ':' :: pw ++ '@' :: host ++ ':' ::
        port ++ '/' :: dbname := by
  constructor
  · have hq : ∀ c ∈ renderQueryPairs ps, c ≠ '#' := by
      intro c hc
      rcases renderQueryPairs_chars ps hps c hc with h | h | h
      · exact alwaysSafe_ne c '#' h (by decide)
      · rw [h]; decide
      · rw [h]; decide
    have hurlne : ("postgresql://".toList ++ netloc ++ '/' :: db ++
        '?' :: renderQueryPairs ps) ≠ [] := by
      rw [List.append_assoc, List.append_assoc]
      simp
    unfold Settings.database_url
    simp only []
    rw [if_neg hurlne]
    unfold sanitize_database_url
    rw [urlparse_structured netloc db (renderQueryPairs ps) hn hnl hdb hq]
    simp only []
    rw [sanitizeQuery_render ps hps hkeys]
    exact urlunparse_structured netloc db _ hnl
  · rfl

/-- Witness for `databaseUrlSanitization` at a concrete Neon-style URL with
an `sslmode` and a `channel_binding` parameter. -/
theorem databaseUrlSanitization_witness :
    Settings.database_url
        (some ("postgresql://".toList ++ "user:pw@host:5432".toList ++
          '/' :: "neondb".toList ++ '?' :: renderQueryPairs
            [("sslmode".toList, "require".toList),
             ("channel_binding".toList, "require".toList)]))
        [] [] [] [] [] =
      "postgresql://".toList ++ "user:pw@host:5432".toList ++
        '/' :: "neondb".toList ++ optQuery (renderQueryPairs
          ([("sslmode".toList, "require".toList),
            ("channel_binding".toList, "require".toList)].filter
            fun p => p.1 ≠ "channel_binding".toList)) ∧
    Settings.database_url none [] [] [] [] [] =
      "postgresql://".toList ++ [] ++ ':' :: [] ++ '@' :: [] ++ ':' ::
        [] ++ '/' :: [] :=
  databaseUrlSanitization "user:pw@host:5432".toList "neondb".toList
    [("sslmode".toList, "require".toList),
     ("channel_binding".toList, "require".toList)]
    [] [] [] [] []
    (by decide) (by decide) (by decide)
    (by unfold SafePairs; decide) (by decide)

lemma hexVal_hexLower (n : Nat) (hn : n < 16) :
    hexDigitVal (hexDigitLower n) = some n := by
  interval_cases n <;> rfl

lemma parseStringBody_escape (s : List Char) (rest : List Char) :
    parseStringBody ((s.map escapeJsonChar).flatten ++ '"' :: rest) = some (s, rest) := by
  induction s with
  | nil => rfl
  | cons c t ih =>
    have hassoc : (((c :: t).map escapeJsonChar).flatten ++ '"' :: rest) =
        escapeJsonChar c ++ ((t.map escapeJsonChar).flatten ++ '"' :: rest) := by
      simp [List.append_assoc]
    rw [hassoc]
    by_cases h1 : c = '"'
    · subst h1
      rw [show escapeJsonChar '"' = ['\\', '"'] from rfl]
      show (fun p => ('"' :: p.1, p.2)) <$>
        parseStringBody ((t.map escapeJsonChar).flatten ++ '"' :: rest) = _
      rw [ih]; rfl
    by_cases h2 : c = '\\'
    · subst h2
      rw [show escapeJsonChar '\\' = ['\\', '\\'] from rfl]
      show (fun p => ('\\' :: p.1, p.2)) <$>
        parseStringBody ((t.map escapeJsonChar).flatten ++ '"' :: rest) = _
      rw [ih]; rfl
    by_cases h3 : c = '\x08'
    · subst h3
      rw [show escapeJsonChar '\x08' = ['\\', 'b'] from rfl]
      show (fun p => ('\x08' :: p.1, p.2)) <$>
        parseStringBody ((t.map escapeJsonChar).flatten ++ '"' :: rest) = _
      rw [ih]; rfl
    by_cases h4 : c = '\x0c'
    · subst h4
      rw [show escapeJsonChar '\x0c' = ['\\', 'f'] from rfl]
      show (fun p => ('\x0c' :: p.1, p.2)) <$>
        parseStringBody ((t.map escapeJsonChar).flatten ++ '"' :: rest) = _
      rw [ih]; rfl
    by_cases h5 : c = '\n'
    · subst h5
      rw [show escapeJsonChar '\n' = ['\\', 'n'] from rfl]
      show (fun p => ('\n' :: p.1, p.2)) <$>
        parseStringBody ((t.map escapeJsonChar).flatten ++ '"' :: rest) = _
      rw [ih]; rfl
    by_cases h6 : c = '\r'
    · subst h6
      rw [show escapeJsonChar '\r' = ['\\', 'r'] from rfl]
      show (fun p => ('\r' :: p.1, p.2)) <$>
        parseStringBody ((t.map escapeJsonChar).flatten ++ '"' :: rest) = _
      rw [ih]; rfl
    by_cases h7 : c = '\t'
    · subst h7
      rw [show escapeJsonChar '\t' = ['\\', 't'] from rfl]
      show (fun p => ('\t' :: p.1, p.2)) <$>
        parseStringBody ((t.map escapeJsonChar).flatten ++ '"' :: rest) = _
      rw [ih]; rfl
    by_cases h8 : c.toNat < 32
    · have hesc : escapeJsonChar c =
          ['\\', 'u', '0', '0', hexDigitLower (c.toNat / 16),
           hexDigitLower (c.toNat % 16)] := by
        unfold escapeJsonChar
        simp [h1, h2, h3, h4, h5, h6, h7, h8]
      have hd1 : hexDigitVal (hexDigitLower (c.toNat / 16)) = some (c.toNat / 16) :=
        hexVal_hexLower _ (by omega)
      have hd2 : hexDigitVal (hexDigitLower (c.toNat % 16)) = some (c.toNat % 16) :=
        hexVal_hexLower _ (by omega)
      rw [hesc]
      simp only [List.cons_append, List.nil_append, parseStringBody,
        show hexDigitVal '0' = some 0 from rfl, hd1, hd2, List.append_eq]
      rw [ih]
      have : (4096 * 0 + 256 * 0 + 16 * (c.toNat / 16) + c.toNat % 16) = c.toNat := by
        omega
      rw [this, Char.ofNat_toNat]
      rfl
    · have hesc : escapeJsonChar c = [c] := by
        unfold escapeJsonChar
        simp [h1, h2, h3, h4, h5, h6, h7, h8]
      rw [hesc, List.cons_append, List.nil_append]
      rw [parseStringBody.eq_def]
      split <;> simp_all

lemma pv_str (f : Nat) (hf : 0 < f) (s : List Char) (rest : List Char) :
    parseValue f (' ' :: (encodeJsonString s ++ rest)) = some (.str s, rest) := by
  obtain ⟨g, rfl⟩ : ∃ g, f = g + 1 := ⟨f - 1, by omega⟩
  show (fun p => (Jv.str p.1, p.2)) <$>
    parseStringBody (((s.map escapeJsonChar).flatten ++ ['"']) ++ rest) = _
  rw [List.append_assoc]
  show (fun p => (Jv.str p.1, p.2)) <$>
    parseStringBody ((s.map escapeJsonChar).flatten ++ '"' :: rest) = _
  rw [parseStringBody_escape]
  rfl

lemma pv_optstr (f : Nat) (hf : 0 < f) (ts : Option String) (rest : List Char) :
    parseValue f (' ' :: (encodeJsonOptString ts ++ rest)) = some (tsJv ts, rest) := by
  cases ts with
  | none =>
    obtain ⟨g, rfl⟩ : ∃ g, f = g + 1 := ⟨f - 1, by omega⟩
    rfl
  | some t => exact pv_str f hf t.toList rest

lemma pom_msg (g : Nat) (m : ChatMessage) (rest : List Char) :
    parseObjMembers (g + 4)
      ("\n    \"role\": ".toList ++ (encodeJsonString m.role.toList ++
        (",\n    \"content\": ".toList ++ (encodeJsonString m.content.toList ++
          (",\n    \"timestamp\": ".toList ++ (encodeJsonOptString m.timestamp ++
            ("\n  \x7d".toList ++ rest))))))) =
      some ([("role".toList, .str m.role.toList),
             ("content".toList, .str m.content.toList),
             ("timestamp".toList, tsJv m.timestamp)], rest) := by
  have h1 : parseObjMembers (g + 4)
      ("\n    \"role\": ".toList ++ (encodeJsonString m.role.toList ++
        (",\n    \"content\": ".toList ++ (encodeJsonString m.content.toList ++
          (",\n    \"timestamp\": ".toList ++ (encodeJsonOptString m.timestamp ++
            ("\n  \x7d".toList ++ rest))))))) =
      match parseValue (g + 3) (' ' :: (encodeJsonString m.role.toList ++
          (",\n    \"content\": ".toList ++ (encodeJsonString m.content.toList ++
            (",\n    \"timestamp\": ".toList ++ (encodeJsonOptString m.timestamp ++
              ("\n  \x7d".toList ++ rest))))))) with
      | none => none
      | some (v, rest3) =>
        match skipWs rest3 with
        | ',' :: rest4 =>
          (fun p => (("role".toList, v) :: p.1, p.2)) <$> parseObjMembers (g + 3) rest4
        | '}' :: rest4 => some ([("role".toList, v)], rest4)
        | _ => none := rfl
  rw [h1, pv_str (g + 3) (by omega) m.role.toList _]
  show ((fun p => (("role".toList, Jv.str m.role.toList) :: p.1, p.2)) <$>
      parseObjMembers (g + 3)
        ("\n    \"content\": ".toList ++ (encodeJsonString m.content.toList ++
          (",\n    \"timestamp\": ".toList ++ (encodeJsonOptString m.timestamp ++
            ("\n  \x7d".toList ++ rest)))))) = _
  have h2 : parseObjMembers (g + 3)
      ("\n    \"content\": ".toList ++ (encodeJsonString m.content.toList ++
        (",\n    \"timestamp\": ".toList ++ (encodeJsonOptString m.timestamp ++
          ("\n  \x7d".toList ++ rest))))) =
      match parseValue (g + 2) (' ' :: (encodeJsonString m.content.toList ++
          (",\n    \"timestamp\": ".toList ++ (encodeJsonOptString m.timestamp ++
            ("\n  \x7d".toList ++ rest))))) with
      | none => none
      | some (v, rest3) =>
        match skipWs rest3 with
        | ',' :: rest4 =>
          (fun p => (("content".toList, v) :: p.1, p.2)) <$> parseObjMembers (g + 2) rest4
        | '}' :: rest4 => some ([("content".toList, v)], rest4)
        | _ => none := rfl
  rw [h2, pv_str (g + 2) (by omega) m.content.toList _]
  show ((fun p => (("role".toList, Jv.str m.role.toList) :: p.1, p.2)) <$>
      ((fun p => (("content".toList, Jv.str m.content.toList) :: p.1, p.2)) <$>
        parseObjMembers (g + 2)
          ("\n    \"timestamp\": ".toList ++ (encodeJsonOptString m.timestamp ++
            ("\n  \x7d".toList ++ rest))))) = _
  have h3 : parseObjMembers (g + 2)
      ("\n    \"timestamp\": ".toList ++ (encodeJsonOptString m.timestamp ++
        ("\n  \x7d".toList ++ rest))) =
      match parseValue (g + 1) (' ' :: (encodeJsonOptString m.timestamp ++
          ("\n  \x7d".toList ++ rest))) with
      | none => none
      | some (v, rest3) =>
        match skipWs rest3 with
        | ',' :: rest4 =>
          (fun p => (("timestamp".toList, v) :: p.1, p.2)) <$> parseObjMembers (g + 1) rest4
        | '}' :: rest4 => some ([("timestamp".toList, v)], rest4)
        | _ => none := rfl
  rw [h3, pv_optstr (g + 1) (by omega) m.timestamp _]
  rfl

lemma encodeMessage_cons (m : ChatMessage) (rest : List Char) :
    encodeMessage m ++ rest =
      '{' :: ("\n    \"role\": ".toList ++ (encodeJsonString m.role.toList ++
        (",\n    \"content\": ".toList ++ (encodeJsonString m.content.toList ++
          (",\n    \"timestamp\": ".toList ++ (encodeJsonOptString m.timestamp ++
            ("\n  \x7d".toList ++ rest))))))) := by
  unfold encodeMessage
  simp only [List.append_assoc]
  rfl

lemma pv_ws_message (f : Nat) (hf : 5 ≤ f) (m : ChatMessage) (rest : List Char) :
    parseValue f ('\n' :: ' ' :: ' ' :: (encodeMessage m ++ rest)) =
      some (msgJv m, rest) := by
  obtain ⟨g, rfl⟩ : ∃ g, f = g + 5 := ⟨f - 5, by omega⟩
  rw [encodeMessage_cons]
  show (fun p => (Jv.obj p.1, p.2)) <$> parseObjMembers (g + 4)
      ("\n    \"role\": ".toList ++ (encodeJsonString m.role.toList ++
        (",\n    \"content\": ".toList ++ (encodeJsonString m.content.toList ++
          (",\n    \"timestamp\": ".toList ++ (encodeJsonOptString m.timestamp ++
            ("\n  \x7d".toList ++ rest))))))) = _
  rw [pom_msg]
  rfl

lemma intercalate_cons_ne (sep a : List Char) (l : List (List Char)) (h : l ≠ []) :
    List.intercalate sep (a :: l) = a ++ (sep ++ List.intercalate sep l) := by
  cases l with
  | nil => cases h rfl
  | cons b t =>
    unfold List.intercalate
    rw [List.intersperse_cons_cons, List.flatten_cons, List.flatten_cons]

lemma pai_msgs (msgs : List ChatMessage) : ∀ f : Nat, msgs.length + 5 ≤ f →
    msgs ≠ [] → ∀ rest : List Char,
    parseArrayItems f ('\n' :: ' ' :: ' ' ::
      (List.intercalate ",\n  ".toList (msgs.map encodeMessage) ++
        ('\n' :: ']' :: rest))) = some (msgs.map msgJv, rest) := by
  induction msgs with
  | nil => intro f hf hne rest; cases hne rfl
  | cons m t ih =>
    intro f hf hne rest
    obtain ⟨g, rfl⟩ : ∃ g, f = g + 1 := ⟨f - 1, by omega⟩
    by_cases ht : t = []
    · subst ht
      have hsing : List.intercalate ",\n  ".toList ([m].map encodeMessage) =
          encodeMessage m := by
        simp [List.intercalate]
      rw [hsing]
      have h1 : parseArrayItems (g + 1)
          ('\n' :: ' ' :: ' ' :: (encodeMessage m ++ ('\n' :: ']' :: rest))) =
          match parseValue g
              ('\n' :: ' ' :: ' ' :: (encodeMessage m ++ ('\n' :: ']' :: rest))) with
          | none => none
          | some (v, r2) =>
            match skipWs r2 with
            | ',' :: r3 => (fun p => (v :: p.1, p.2)) <$> parseArrayItems g r3
            | ']' :: r3 => some ([v], r3)
            | _ => none := rfl
      rw [h1, pv_ws_message g (by simp at hf; omega) m ('\n' :: ']' :: rest)]
      rfl
    · have hsplit : List.intercalate ",\n  ".toList ((m :: t).map encodeMessage) ++
          ('\n' :: ']' :: rest) =
          encodeMessage m ++ (',' :: '\n' :: ' ' :: ' ' ::
            (List.intercalate ",\n  ".toList (t.map encodeMessage) ++
              ('\n' :: ']' :: rest))) := by
        rw [List.map_cons, intercalate_cons_ne _ _ _ (by simp [ht]),
          List.append_assoc]
        rfl
      rw [hsplit]
      have h1 : parseArrayItems (g + 1)
          ('\n' :: ' ' :: ' ' :: (encodeMessage m ++ (',' :: '\n' :: ' ' :: ' ' ::
            (List.intercalate ",\n  ".toList (t.map encodeMessage) ++
              ('\n' :: ']' :: rest))))) =
          match parseValue g
              ('\n' :: ' ' :: ' ' :: (encodeMessage m ++ (',' :: '\n' :: ' ' :: ' ' ::
                (List.intercalate ",\n  ".toList (t.map encodeMessage) ++
                  ('\n' :: ']' :: rest))))) with
          | none => none
          | some (v, r2) =>
            match skipWs r2 with
            | ',' :: r3 => (fun p => (v :: p.1, p.2)) <$> parseArrayItems g r3
            | ']' :: r3 => some ([v], r3)
            | _ => none := rfl
      rw [h1, pv_ws_message g (by simp at hf; omega) m _]
      show (fun p => (msgJv m :: p.1, p.2)) <$> parseArrayItems g
          ('\n' :: ' ' :: ' ' :: (List.intercalate ",\n  ".toList (t.map encodeMessage) ++
            ('\n' :: ']' :: rest))) = _
      rw [ih g (by simp at hf ⊢; omega) ht rest]
      rfl

lemma encodeMessage_len (m : ChatMessage) : 1 ≤ (encodeMessage m).length := by
  unfold encodeMessage
  simp only [List.length_append]
  have h14 : ("\x7b\n    \"role\": ".toList).length = 14 := rfl
  omega

lemma intercalate_len_ge (sep : List Char) (l : List (List Char))
    (h : ∀ x ∈ l, 1 ≤ x.length) : l.length ≤ (List.intercalate sep l).length := by
  induction l with
  | nil => simp [List.intercalate]
  | cons a t ih =>
    by_cases ht : t = []
    · subst ht
      have := h a (List.mem_cons_self a [])
      simpa [List.intercalate] using this
    · rw [intercalate_cons_ne sep a t ht]
      simp only [List.length_append, List.length_cons]
      have h1 := ih (fun x hx => h x (List.mem_cons_of_mem a hx))
      have h2 := h a (List.mem_cons_self a t)
      omega

lemma save_len_bound (m : ChatMessage) (t : List ChatMessage) :
    (m :: t).length + 5 ≤ (save_chat_history (m :: t)).length := by
  unfold save_chat_history
  rw [if_neg (List.cons_ne_nil m t)]
  simp only [List.length_append]
  have h4 : ("[\n  ".toList).length = 4 := rfl
  have h2 : ("\n]".toList).length = 2 := rfl
  have hI := intercalate_len_ge ",\n  ".toList ((m :: t).map encodeMessage) (by
    intro x hx
    rw [List.mem_map] at hx
    obtain ⟨y, _, rfl⟩ := hx
    exact encodeMessage_len y)
  rw [List.length_map] at hI
  simp only [List.length_cons] at hI ⊢
  omega

lemma chatMessageOfJv_msgJv (m : ChatMessage) : chatMessageOfJv (msgJv m) = some m := by
  cases m with
  | mk r c ts => cases ts <;> rfl

lemma mapM_loop_msgJv : ∀ (l acc : List ChatMessage),
    List.mapM.loop chatMessageOfJv (l.map msgJv) acc = some (acc.reverse ++ l) := by
  intro l
  induction l with
  | nil => intro acc; simp [List.mapM.loop]
  | cons m t ih =>
    intro acc
    simp [List.mapM.loop, chatMessageOfJv_msgJv, ih]

/-- C10: for every chat history, `save_chat_history` followed by
`load_chat_history` on the same file restores the history exactly, message by
message, in order. -/
theorem saveLoadRoundTrip (h : List ChatMessage) :
    load_chat_history (save_chat_history h) = some h := by
  cases h with
  | nil => rfl
  | cons m t =>
    have hlen := save_len_bound m t
    have hsave : save_chat_history (m :: t) =
        "[\n  ".toList ++ (List.intercalate ",\n  ".toList ((m :: t).map encodeMessage) ++
          "\n]".toList) := by
      unfold save_chat_history
      rw [if_neg (List.cons_ne_nil m t), List.append_assoc]
    have hIB : ∃ K, List.intercalate ",\n  ".toList ((m :: t).map encodeMessage) =
        encodeMessage m ++ K := by
      by_cases ht : t = []
      · subst ht
        exact ⟨[], by simp [List.intercalate]⟩
      · exact ⟨",\n  ".toList ++ List.intercalate ",\n  ".toList (t.map encodeMessage),
          by rw [List.map_cons, intercalate_cons_ne _ _ _ (by simp [ht])]⟩
    obtain ⟨K, hK⟩ := hIB
    have h1 : parseValue ((save_chat_history (m :: t)).length + 1)
        (save_chat_history (m :: t)) =
        (fun p => (Jv.arr p.1, p.2)) <$>
          parseArrayItems ((save_chat_history (m :: t)).length)
            ('\n' :: ' ' :: ' ' ::
              (List.intercalate ",\n  ".toList ((m :: t).map encodeMessage) ++
                ('\n' :: ']' :: []))) := by
      conv_lhs => rw [hsave]
      show (match skipWs ('\n' :: ' ' :: ' ' ::
          (List.intercalate ",\n  ".toList ((m :: t).map encodeMessage) ++
            ('\n' :: ']' :: []))) with
        | ']' :: rest2 => some (Jv.arr [], rest2)
        | _ => (fun (p : List Jv × List Char) => (Jv.arr p.1, p.2)) <$>
            parseArrayItems ((save_chat_history (m :: t)).length)
              ('\n' :: ' ' :: ' ' ::
                (List.intercalate ",\n  ".toList ((m :: t).map encodeMessage) ++
                  ('\n' :: ']' :: [])))) = _
      rw [hK, List.append_assoc, encodeMessage_cons]
      rfl
    unfold load_chat_history json_load
    rw [h1, pai_msgs (m :: t) ((save_chat_history (m :: t)).length)
      hlen (List.cons_ne_nil m t) []]
    have hloop := mapM_loop_msgJv (m :: t) []
    simpa using hloop
